import Mathlib

/-!
Shallow embedding of the request/response cache polyfill (the Cache class
adapted from the cache-polyfill project).  The persistent store backed by
the transactional record engine is modelled as a list of records in
insertion order; the cursor scan over the cacheName index corresponds to
filtering that list by the cacheName field, in order, and the auto-assigned
primary keys correspond to list positions.  Request and Response model the
standard fetch abstractions as the source consumes them: a request is a URL
string plus a method string (the URL string retains any fragment, as
witnessed by the explicit fragment-stripping the source performs in put,
delete and keys); a response carries url, status, statusText, headers, body
bytes, and the body-consumption state.  Each operation is modelled as a
pure state transformer on the store, mirroring its single read or write
transaction.
-/

namespace CacheAPI

/-- A fetch request as the cache code consumes it: url and method. -/
structure Request where
  url : String
  method : String
deriving DecidableEq

/-- A fetch response as the cache code consumes and produces it. -/
structure Response where
  url : String
  status : Nat
  statusText : String
  headers : List (String × String)
  body : List Nat
  hasBody : Bool
  bodyUsed : Bool
deriving DecidableEq

/-- One persisted record, mirroring the CacheData interface of the source. -/
structure CacheData where
  cacheName : String
  headers : List (String × String)
  status : Nat
  statusText : String
  body : List Nat
  reqUrl : String
  resUrl : String
  reqMethod : String
deriving DecidableEq

/-- The CacheOptions bag of the source; absent fields default to false. -/
structure CacheOptions where
  ignoreSearch : Bool := false
  ignoreMethod : Bool := false
  ignoreVary : Bool := false
deriving DecidableEq

/-- Model of the url.replace removing everything from the first hash sign
to the end of the string, as done in put, delete and keys. -/
def stripFragment (s : String) : String :=
  ⟨s.data.takeWhile (fun c => c != '#')⟩

/-- Model of the scheme test regex of put and addAll: the url must start
with the literal text http:// or https://. -/
def schemeAllowed (url : String) : Bool :=
  "http://".data.isPrefixOf url.data || "https://".data.isPrefixOf url.data

/-- Character-wise lowercasing, modelling the case-insensitivity of header
name lookup. -/
def lowerStr (s : String) : String :=
  ⟨s.data.map Char.toLower⟩

/-- Joining of header values by a comma and a space, as Headers.get does
when several entries share the name. -/
def joinVals : List String → String
  | [] => ""
  | [v] => v
  | v :: rest => v ++ ", " ++ joinVals rest

/-- Model of Headers.get: case-insensitive name lookup, all values of the
matching entries joined by a comma and space, none when absent. -/
def headersGet (hs : List (String × String)) (name : String) : Option String :=
  let vals := (hs.filter (fun p => lowerStr p.fst == lowerStr name)).map (fun p => p.snd)
  if vals.isEmpty then none else some (joinVals vals)

/-- The Vary check of put: the Vary header is present and contains a star. -/
def varyHasStar (hs : List (String × String)) : Bool :=
  match headersGet hs "Vary" with
  | none => false
  | some v => v.data.contains '*'

/-- The record put assembles and stores (lines 193 to 202 of the source):
headers, status, statusText and body copied from the response, request and
response URLs fragment-stripped, the request method, and the cache name. -/
def mkCacheData (cacheName : String) (request : Request) (res : Response) : CacheData :=
  { cacheName := cacheName
    headers := res.headers
    status := res.status
    statusText := res.statusText
    body := res.body
    reqUrl := stripFragment request.url
    resUrl := stripFragment res.url
    reqMethod := request.method }

/-- The response matchAll reconstructs from a stored record: the body and
the init data carrying the stored resUrl, status, statusText and headers. -/
def respOfRecord (c : CacheData) : Response :=
  { url := c.resUrl
    status := c.status
    statusText := c.statusText
    headers := c.headers
    body := c.body
    hasBody := true
    bodyUsed := false }

/-- The per-record condition of the delete cursor scan: the record belongs
to this cache name, its stored reqUrl equals the fragment-stripped request
url, and either ignoreMethod is set or the methods agree. -/
def deleteHit (cacheName : String) (url : String) (request : Request)
    (options : CacheOptions) (c : CacheData) : Bool :=
  c.cacheName == cacheName && url == c.reqUrl &&
    (options.ignoreMethod || request.method == c.reqMethod)

namespace Cache

/-- Cache.delete: if the method is neither GET nor HEAD and ignoreMethod is
set, return false without touching the store; otherwise remove every record
of this cache name whose reqUrl equals the fragment-stripped request url
and whose method matches (or any method under ignoreMethod), returning true
exactly when some record was hit. -/
def deleteRun (cacheName : String) (store : List CacheData) (request : Request)
    (options : CacheOptions) : Bool × List CacheData :=
  if !(request.method == "GET" || request.method == "HEAD") && options.ignoreMethod then
    (false, store)
  else
    let url := stripFragment request.url
    (store.any (deleteHit cacheName url request options),
     store.filter (fun c => !(deleteHit cacheName url request options c)))

/-- Cache.put: first runs delete on the request with empty options, then
performs the validation checks in source order (scheme, method, status 206,
Vary star, consumed body), rejecting with a type error message if one
fails; on success appends the assembled record to the store.  The first
component is the rejection message when the call rejects; the second is the
resulting store state, which reflects the preceding delete even when a
later check rejects. -/
def putRun (cacheName : String) (store : List CacheData) (request : Request)
    (res : Response) : Option String × List CacheData :=
  let store1 := (deleteRun cacheName store request {}).2
  if !(schemeAllowed request.url) then
    (some "request scheme is unsupported", store1)
  else if request.method != "GET" then
    (some "request method is unsupported", store1)
  else if res.status == 206 then
    (some "status code 206 is unsupported", store1)
  else if varyHasStar res.headers then
    (some "vary header contains a star", store1)
  else if res.hasBody && res.bodyUsed then
    (some "response body is already used", store1)
  else
    (none, store1 ++ [mkCacheData cacheName request res])

/-- Cache.matchAll: with no request the cursor pushes nothing; with a HEAD
request the scan is skipped; otherwise every record of this cache name
whose stored reqUrl equals the request url as given (no fragment stripping
on the query side, no method comparison) is reconstructed into a response.
The options argument is accepted but unused, as in the source. -/
def matchAllRun (cacheName : String) (store : List CacheData)
    (request : Option Request) (options : CacheOptions) : List Response :=
  match request with
  | none => []
  | some req =>
    if req.method == "HEAD" then []
    else
      (store.filter (fun c => c.cacheName == cacheName && req.url == c.reqUrl)).map
        respOfRecord

/-- Cache.match: the first element of the matchAll result, absent when the
result is empty. -/
def matchRun (cacheName : String) (store : List CacheData)
    (request : Option Request) (options : CacheOptions) : Option Response :=
  (matchAllRun cacheName store request options).head?

end Cache

/-- The mutating operations of the cache interface.  matchAll, match and
keys open read-only transactions and never write; add and addAll insert
only by invoking put on each fetched pair, so every store mutation of the
component is one of these two operations. -/
inductive CacheOp where
  | putOp : String → Request → Response → CacheOp
  | delOp : String → Request → CacheOptions → CacheOp
deriving DecidableEq

/-- The store state after one operation. -/
def stepOp (store : List CacheData) : CacheOp → List CacheData
  | CacheOp.putOp n r res => (Cache.putRun n store r res).2
  | CacheOp.delOp n r o => (Cache.deleteRun n store r o).2

/-- The store state reached by a sequence of operations from the initially
empty store. -/
def runOps (ops : List CacheOp) : List CacheData :=
  ops.foldl stepOp []

/-- Wellformedness of a stored record: its method is GET and its stored
request URL carries no fragment. -/
def recordWF (c : CacheData) : Prop :=
  c.reqMethod = "GET" ∧ stripFragment c.reqUrl = c.reqUrl

/-- Wellformedness of a store state: every record is wellformed. -/
def storeWF (s : List CacheData) : Prop := ∀ c ∈ s, recordWF c

/-- The match key of a stored record as the invariants of the specification
describe it: owning cache name, normalized request URL, request method. -/
def recKey (n u m : String) (c : CacheData) : Bool :=
  c.cacheName == n && u == c.reqUrl && m == c.reqMethod

/-- The disjunction of the five put validation failures named by the
specification: disallowed scheme, disallowed method, status 206, wildcard
Vary header, already consumed body. -/
def putValidationFails (r : Request) (res : Response) : Prop :=
  schemeAllowed r.url = false ∨ r.method ≠ "GET" ∨ res.status = 206 ∨
    varyHasStar res.headers = true ∨ (res.hasBody = true ∧ res.bodyUsed = true)

/-- Modelled from the amended claim wording for C5: the records of the
cache name whose stored request URL equals the query URL exactly as given,
with no method comparison, reconstructed into responses. -/
def matchAllByUrlOnly (cacheName : String) (store : List CacheData) (req : Request) :
    List Response :=
  (store.filter (fun c => c.cacheName == cacheName && req.url == c.reqUrl)).map respOfRecord

/-- A plain GET request used as concrete input by witnesses. -/
def sampleReq : Request := { url := "https://a.test/x", method := "GET" }

/-- An ordinary OK response used as concrete input by witnesses. -/
def okRes : Response :=
  { url := "https://a.test/x", status := 200, statusText := "OK",
    headers := [("content-type", "text/plain")], body := [104, 105],
    hasBody := true, bodyUsed := false }

/-- A second OK response with a different body. -/
def okRes2 : Response :=
  { url := "https://a.test/x", status := 200, statusText := "OK",
    headers := [], body := [119], hasBody := true, bodyUsed := false }

/-- A status 206 response, rejected by put validation. -/
def res206 : Response :=
  { url := "https://a.test/x", status := 206, statusText := "OK",
    headers := [], body := [], hasBody := true, bodyUsed := false }

/-- A GET request whose URL carries the fragment frag1. -/
def fragPutReq : Request := { url := "https://a.test/x#frag1", method := "GET" }

/-- A GET request for the same URL with the fragment frag2. -/
def fragGetReq : Request := { url := "https://a.test/x#frag2", method := "GET" }

/-- A GET request with a fragment, used both to store and to query. -/
def fragSelfReq : Request := { url := "https://a.test/y#f", method := "GET" }

/-- An OK response paired with fragSelfReq. -/
def okResY : Response :=
  { url := "https://a.test/y", status := 200, statusText := "OK",
    headers := [], body := [1], hasBody := true, bodyUsed := false }

/-- A POST request for the sample URL. -/
def postReq : Request := { url := "https://a.test/x", method := "POST" }

/-- A GET request with a disallowed URL scheme. -/
def ftpReq : Request := { url := "ftp://example.com/x", method := "GET" }

/-- A HEAD request for the sample URL. -/
def headReq : Request := { url := "https://a.test/x", method := "HEAD" }

/-- Taking the prefix of a list twice with the same predicate takes it
once. -/
theorem takeWhile_idem (p : Char → Bool) (l : List Char) :
    (l.takeWhile p).takeWhile p = l.takeWhile p := by
  induction l with
  | nil => rfl
  | cons a tl ih =>
    cases h : p a with
    | false => simp [List.takeWhile_cons, h]
    | true => simp [List.takeWhile_cons, h, ih]

/-- Fragment stripping is idempotent. -/
theorem stripFragment_idem (s : String) :
    stripFragment (stripFragment s) = stripFragment s := by
  unfold stripFragment
  exact congrArg String.mk (takeWhile_idem _ _)

/-- Keeping only the elements a predicate rejects and then keeping only
those it accepts leaves nothing. -/
theorem filter_not_filter {α : Type} (p : α → Bool) (l : List α) :
    (l.filter fun a => !(p a)).filter p = [] := by
  induction l with
  | nil => rfl
  | cons a tl ih =>
    cases h : p a with
    | false => simp [List.filter_cons, h, ih]
    | true => simp [List.filter_cons, h, ih]

/-- A list every element of which a predicate rejects is unchanged by
keeping the rejected elements. -/
theorem filter_not_eq_self_of_none {α : Type} (p : α → Bool) (l : List α)
    (h : ∀ a ∈ l, p a = false) : (l.filter fun a => !(p a)) = l := by
  induction l with
  | nil => rfl
  | cons a tl ih =>
    have ha : p a = false := h a (List.mem_cons_self a tl)
    simp [List.filter_cons, ha, ih fun b hb => h b (List.mem_cons_of_mem a hb)]

/-- Removing the elements a predicate accepts from a list that contains at
least one such element shortens the list. -/
theorem length_filter_not_lt_of_any {α : Type} (p : α → Bool) (l : List α)
    (h : l.any p = true) : (l.filter fun a => !(p a)).length < l.length := by
  induction l with
  | nil => simp at h
  | cons a tl ih =>
    cases ha : p a with
    | true =>
      have hle := List.length_filter_le (fun a => !(p a)) tl
      simp only [List.filter_cons, ha, Bool.not_true, List.length_cons]
      simp only [Bool.false_eq_true, if_false]
      omega
    | false =>
      have htl : tl.any p = true := by simpa [List.any_cons, ha] using h
      have hlt := ih htl
      simp only [List.filter_cons, ha, Bool.not_false, List.length_cons, if_true]
      omega

/-- Some element satisfies the predicate exactly when dropping the
satisfying elements changes the list. -/
theorem any_iff_filter_ne {α : Type} (p : α → Bool) (l : List α) :
    l.any p = true ↔ (l.filter fun a => !(p a)) ≠ l := by
  constructor
  · intro h heq
    have := length_filter_not_lt_of_any p l h
    rw [heq] at this
    exact Nat.lt_irrefl _ this
  · intro hne
    by_contra hany
    have hall : ∀ a ∈ l, p a = false := by
      intro a ha
      cases hpa : p a with
      | false => rfl
      | true =>
        exact absurd (List.any_eq_true.mpr ⟨a, ha, hpa⟩) hany
    exact hne (filter_not_eq_self_of_none p l hall)

/-- Filtering after another filter yields no more elements than filtering
the original list. -/
theorem length_filter_filter_le {α : Type} (p q : α → Bool) (l : List α) :
    ((l.filter q).filter p).length ≤ (l.filter p).length := by
  induction l with
  | nil => exact Nat.le_refl 0
  | cons a tl ih =>
    cases hq : q a with
    | false =>
      cases hp : p a with
      | false => simpa [List.filter_cons, hq, hp] using ih
      | true =>
        simp only [List.filter_cons, hq, hp, if_true, if_false, Bool.false_eq_true,
          List.length_cons]
        exact Nat.le_succ_of_le ih
    | true =>
      cases hp : p a with
      | false => simpa [List.filter_cons, hq, hp] using ih
      | true =>
        simp only [List.filter_cons, hq, hp, if_true, List.length_cons]
        exact Nat.succ_le_succ ih

/-- With empty options the delete condition reduces to equality of cache
name, normalized URL and method, which is the recKey predicate. -/
theorem recKey_eq_deleteHit (n : String) (r : Request) :
    deleteHit n (stripFragment r.url) r {} = recKey n (stripFragment r.url) r.method := by
  funext c
  simp [deleteHit, recKey]

/-- With empty options delete never takes the early return: it scans and
filters. -/
theorem deleteRun_empty_options (n : String) (s : List CacheData) (r : Request) :
    Cache.deleteRun n s r {} =
      (s.any (deleteHit n (stripFragment r.url) r {}),
       s.filter fun c => !(deleteHit n (stripFragment r.url) r {} c)) := by
  simp [Cache.deleteRun]

/-- The resulting store of delete is either untouched (early return) or the
filtered store. -/
theorem deleteRun_snd_cases (n : String) (s : List CacheData) (r : Request)
    (o : CacheOptions) :
    (Cache.deleteRun n s r o).2 = s ∨
    (Cache.deleteRun n s r o).2 =
      s.filter (fun c => !(deleteHit n (stripFragment r.url) r o c)) := by
  unfold Cache.deleteRun
  split
  · exact Or.inl rfl
  · exact Or.inr rfl

/-- Complete case analysis of put: either every validation check passes,
no rejection is reported and the record is appended after the delete, or
some check fails, a rejection is reported and the store is exactly the
delete result. -/
theorem putRun_cases (n : String) (s : List CacheData) (r : Request) (res : Response) :
    ((Cache.putRun n s r res).1 = none ∧
      schemeAllowed r.url = true ∧ r.method = "GET" ∧ res.status ≠ 206 ∧
      varyHasStar res.headers = false ∧ (res.hasBody && res.bodyUsed) = false ∧
      (Cache.putRun n s r res).2 =
        (Cache.deleteRun n s r {}).2 ++ [mkCacheData n r res])
    ∨ ((Cache.putRun n s r res).1.isSome = true ∧
        (schemeAllowed r.url = false ∨ r.method ≠ "GET" ∨ res.status = 206 ∨
          varyHasStar res.headers = true ∨ (res.hasBody = true ∧ res.bodyUsed = true)) ∧
        (Cache.putRun n s r res).2 = (Cache.deleteRun n s r {}).2) := by
  by_cases h1 : schemeAllowed r.url = true
  · by_cases h2 : r.method = "GET"
    · by_cases h3 : res.status = 206
      · right
        refine ⟨?_, Or.inr (Or.inr (Or.inl h3)), ?_⟩ <;> simp [Cache.putRun, h1, h2, h3]
      · by_cases h4 : varyHasStar res.headers = true
        · right
          refine ⟨?_, Or.inr (Or.inr (Or.inr (Or.inl h4))), ?_⟩ <;>
            simp [Cache.putRun, h1, h2, h3, h4]
        · have h4' : varyHasStar res.headers = false := by simpa using h4
          by_cases h5 : (res.hasBody && res.bodyUsed) = true
          · right
            refine ⟨?_, Or.inr (Or.inr (Or.inr (Or.inr (by simpa using h5)))), ?_⟩ <;>
              simp [Cache.putRun, h1, h2, h3, h4', h5]
          · have h5' : (res.hasBody && res.bodyUsed) = false := by simpa using h5
            left
            refine ⟨?_, h1, h2, h3, h4', h5', ?_⟩ <;>
              simp [Cache.putRun, h1, h2, h3, h4', h5']
    · right
      refine ⟨?_, Or.inr (Or.inl h2), ?_⟩ <;> simp [Cache.putRun, h1, h2]
  · have h1' : schemeAllowed r.url = false := by simpa using h1
    right
    refine ⟨?_, Or.inl h1', ?_⟩ <;> simp [Cache.putRun, h1']

/-- A put that reports no rejection passed every validation check and
appended its record after the delete step. -/
theorem putRun_none_elim (n : String) (s : List CacheData) (r : Request) (res : Response)
    (h : (Cache.putRun n s r res).1 = none) :
    schemeAllowed r.url = true ∧ r.method = "GET" ∧ res.status ≠ 206 ∧
    varyHasStar res.headers = false ∧ (res.hasBody && res.bodyUsed) = false ∧
    (Cache.putRun n s r res).2 =
      (Cache.deleteRun n s r {}).2 ++ [mkCacheData n r res] := by
  rcases putRun_cases n s r res with hc | hc
  · exact hc.2
  · rw [h] at hc
    simp at hc

/-- Records surviving a delete were already stored. -/
theorem mem_deleteRun_mem (n : String) (s : List CacheData) (r : Request)
    (o : CacheOptions) (c : CacheData) (hc : c ∈ (Cache.deleteRun n s r o).2) : c ∈ s := by
  unfold Cache.deleteRun at hc
  split at hc
  · exact hc
  · exact (List.mem_filter.mp hc).1

/-- Delete preserves wellformedness of the store. -/
theorem storeWF_deleteRun (n : String) (s : List CacheData) (r : Request)
    (o : CacheOptions) (h : storeWF s) : storeWF (Cache.deleteRun n s r o).2 :=
  fun c hc => h c (mem_deleteRun_mem n s r o c hc)

/-- Put preserves wellformedness of the store: a successful put inserts a
record whose method passed the GET check and whose URL it stripped. -/
theorem storeWF_putRun (n : String) (s : List CacheData) (r : Request) (res : Response)
    (h : storeWF s) : storeWF (Cache.putRun n s r res).2 := by
  have hdel := storeWF_deleteRun n s r {} h
  rcases putRun_cases n s r res with hc | hc
  · rw [hc.2.2.2.2.2.2]
    intro c hcm
    rcases List.mem_append.mp hcm with hm | hm
    · exact hdel c hm
    · have : c = mkCacheData n r res := by simpa using hm
      subst this
      exact ⟨hc.2.2.1, stripFragment_idem r.url⟩
  · rw [hc.2.2]
    exact hdel

/-- Any operation sequence starting from a wellformed store ends in a
wellformed store. -/
theorem storeWF_foldl (ops : List CacheOp) (s : List CacheData) (h : storeWF s) :
    storeWF (ops.foldl stepOp s) := by
  induction ops generalizing s with
  | nil => exact h
  | cons op tl ih =>
    refine ih (stepOp s op) ?_
    cases op with
    | putOp n r res => exact storeWF_putRun n s r res h
    | delOp n r o => exact storeWF_deleteRun n s r o h

/-- Every reachable store is wellformed. -/
theorem storeWF_runOps (ops : List CacheOp) : storeWF (runOps ops) :=
  storeWF_foldl ops [] (fun c hc => absurd hc (List.not_mem_nil c))

/-- No record surviving the delete step of a GET request still carries the
query URL of that request, provided the prior store was wellformed: a
surviving same-cache record has a fragment-free URL and the GET method, so
equality with the query URL would have made the delete remove it. -/
theorem no_url_match_after_delete (n : String) (s : List CacheData) (r : Request)
    (hwf : storeWF s) (hm : r.method = "GET") (c : CacheData)
    (hc : c ∈ (Cache.deleteRun n s r {}).2) :
    (c.cacheName == n && r.url == c.reqUrl) = false := by
  rw [deleteRun_empty_options] at hc
  have hmem := (List.mem_filter.mp hc).1
  have hnot : deleteHit n (stripFragment r.url) r {} c = false := by
    have := (List.mem_filter.mp hc).2
    simpa using this
  rcases hwf c hmem with ⟨hcm, hcu⟩
  by_contra hq
  have hq' : c.cacheName = n ∧ r.url = c.reqUrl := by
    have htrue := Bool.not_eq_false (c.cacheName == n && r.url == c.reqUrl) |>.mp hq
    simpa using htrue
  have hstrip : stripFragment r.url = c.reqUrl := by
    rw [hq'.2.symm] at hcu ⊢
    exact hcu
  have : deleteHit n (stripFragment r.url) r {} c = true := by
    simp [deleteHit, hq'.1, hstrip, hm, hcm]
  rw [this] at hnot
  exact absurd hnot (by decide)

/-- One operation preserves the bound of at most one stored record per
match key. -/
theorem step_key_le_one (s : List CacheData)
    (h : ∀ n u m : String, (s.filter (recKey n u m)).length ≤ 1) (op : CacheOp)
    (n u m : String) : ((stepOp s op).filter (recKey n u m)).length ≤ 1 := by
  cases op with
  | delOp n0 r o =>
    simp only [stepOp]
    rcases deleteRun_snd_cases n0 s r o with hd | hd <;> rw [hd]
    · exact h n u m
    · exact Nat.le_trans (length_filter_filter_le _ _ s) (h n u m)
  | putOp n0 r res =>
    simp only [stepOp]
    have hdel : (Cache.deleteRun n0 s r {}).2 =
        s.filter (fun c => !(deleteHit n0 (stripFragment r.url) r {} c)) := by
      rw [deleteRun_empty_options]
    rcases putRun_cases n0 s r res with hc | hc
    · rw [hc.2.2.2.2.2.2, List.filter_append, List.length_append]
      cases hrk : recKey n u m (mkCacheData n0 r res) with
      | false =>
        have hle : (((Cache.deleteRun n0 s r {}).2).filter (recKey n u m)).length ≤ 1 := by
          rw [hdel]
          exact Nat.le_trans (length_filter_filter_le _ _ s) (h n u m)
        have hnil : ([mkCacheData n0 r res].filter (recKey n u m)).length = 0 := by
          simp [List.filter_cons, hrk]
        omega
      | true =>
        have hkey : n0 = n ∧ u = stripFragment r.url ∧ m = r.method := by
          have hh := hrk
          simp only [recKey, mkCacheData, Bool.and_eq_true, beq_iff_eq] at hh
          exact ⟨hh.1.1, hh.1.2, hh.2⟩
        obtain ⟨hn, hu, hm2⟩ := hkey
        subst hn
        subst hu
        subst hm2
        rw [hdel, recKey_eq_deleteHit n0 r, filter_not_filter]
        simp [List.filter_cons, hrk]
    · rw [hc.2.2, hdel]
      exact Nat.le_trans (length_filter_filter_le _ _ s) (h n u m)

/-- The at-most-one-record-per-key bound is preserved along any operation
sequence. -/
theorem key_le_one_foldl (ops : List CacheOp) (s : List CacheData)
    (h : ∀ n u m : String, (s.filter (recKey n u m)).length ≤ 1) :
    ∀ n u m : String, (((ops.foldl stepOp s).filter (recKey n u m))).length ≤ 1 := by
  induction ops generalizing s with
  | nil => exact h
  | cons op tl ih =>
    exact ih (stepOp s op) (fun n u m => step_key_le_one s h op n u m)

/-- Claim C1, amended: over a wellformed (that is, reachable) store, for a
valid GET http(s) request whose URL carries no fragment and a response that
put accepts, after put completes, match on the same request returns a
response with the same status, statusText, headers and body bytes as the
stored response, and with URL equal to the response URL with any fragment
removed.  (The fragment-free restriction on the request URL is forced by
the counterexample: matchAll compares the unstripped query URL with the
stripped stored URL.) -/
theorem c1_amended_put_then_match (n : String) (s : List CacheData) (r : Request)
    (res : Response) (hwf : storeWF s) (hfrag : stripFragment r.url = r.url)
    (hok : (Cache.putRun n s r res).1 = none) :
    Cache.matchRun n (Cache.putRun n s r res).2 (some r) {} =
      some { url := stripFragment res.url, status := res.status,
             statusText := res.statusText, headers := res.headers, body := res.body,
             hasBody := true, bodyUsed := false } := by
  obtain ⟨_, hm, _, _, _, hstate⟩ := putRun_none_elim n s r res hok
  have hdnil : ((Cache.deleteRun n s r {}).2).filter
      (fun c => c.cacheName == n && r.url == c.reqUrl) = [] := by
    refine List.filter_eq_nil_iff.mpr ?_
    intro c hc hq
    rw [no_url_match_after_delete n s r hwf hm c hc] at hq
    exact absurd hq (by decide)
  have hcond : (r.method == "HEAD") = false := by
    rw [hm]
    decide
  rw [hstate]
  unfold Cache.matchRun Cache.matchAllRun
  simp only [hcond, Bool.false_eq_true, if_false, List.filter_append, hdnil,
    List.nil_append, List.filter_cons, List.filter_nil]
  simp only [mkCacheData, hfrag, beq_self_eq_true, Bool.and_self, if_true]
  simp [respOfRecord]

/-- Claim C1 witness: the amended roundtrip at a concrete request, response
and the empty store. -/
theorem c1_witness :
    Cache.matchRun "v1" (Cache.putRun "v1" [] sampleReq okRes).2 (some sampleReq) {} =
      some { url := stripFragment okRes.url, status := okRes.status,
             statusText := okRes.statusText, headers := okRes.headers, body := okRes.body,
             hasBody := true, bodyUsed := false } :=
  c1_amended_put_then_match "v1" [] sampleReq okRes
    (fun c hc => absurd hc (List.not_mem_nil c)) (by decide) (by decide)

/-- Claim C1 counterexample: a valid GET https request whose URL carries a
fragment is stored by a successful put, yet match on the very same request
returns absent, contradicting the claim that match returns the stored
response for every valid GET http(s) request. -/
theorem c1_counterexample :
    (Cache.putRun "v1" [] fragSelfReq okResY).1 = none ∧
    Cache.matchRun "v1" (Cache.putRun "v1" [] fragSelfReq okResY).2 (some fragSelfReq) {} =
      none := by decide

/-- Claim C2: after put of response one then put of response two for the
same request, both completing, exactly one stored record matches the
request key (cache name, normalized URL, method) and it carries the content
of response two; and, as the general invariant, after any operation
sequence from the empty store at most one stored record matches any given
key within any cache name. -/
theorem c2_last_write_wins (n : String) (s : List CacheData) (r : Request)
    (res1 res2 : Response) (ops : List CacheOp) (n2 u2 m2 : String)
    (h1 : (Cache.putRun n s r res1).1 = none)
    (h2 : (Cache.putRun n (Cache.putRun n s r res1).2 r res2).1 = none) :
    ((Cache.putRun n (Cache.putRun n s r res1).2 r res2).2).filter
        (recKey n (stripFragment r.url) r.method) = [mkCacheData n r res2] ∧
    ((runOps ops).filter (recKey n2 u2 m2)).length ≤ 1 := by
  constructor
  · obtain ⟨_, hm, _, _, _, hstate⟩ :=
      putRun_none_elim n (Cache.putRun n s r res1).2 r res2 h2
    have hdel : (Cache.deleteRun n (Cache.putRun n s r res1).2 r {}).2 =
        (Cache.putRun n s r res1).2.filter
          (fun c => !(deleteHit n (stripFragment r.url) r {} c)) := by
      rw [deleteRun_empty_options]
    rw [hstate, List.filter_append, hdel, recKey_eq_deleteHit n r, filter_not_filter]
    simp [List.filter_cons, recKey, mkCacheData]
  · refine key_le_one_foldl ops [] ?_ n2 u2 m2
    intro n3 u3 m3
    simp

/-- Claim C2 witness: the double put at concrete inputs from the empty
store, and the key bound for the corresponding operation sequence. -/
theorem c2_witness :
    ((Cache.putRun "v1" (Cache.putRun "v1" [] sampleReq okRes).2 sampleReq okRes2).2).filter
        (recKey "v1" (stripFragment sampleReq.url) sampleReq.method) =
      [mkCacheData "v1" sampleReq okRes2] ∧
    ((runOps [CacheOp.putOp "v1" sampleReq okRes, CacheOp.putOp "v1" sampleReq okRes2]).filter
        (recKey "v1" "https://a.test/x" "GET")).length ≤ 1 :=
  c2_last_write_wins "v1" [] sampleReq okRes okRes2
    [CacheOp.putOp "v1" sampleReq okRes, CacheOp.putOp "v1" sampleReq okRes2]
    "v1" "https://a.test/x" "GET" (by decide) (by decide)

/-- Claim C3, amended: a put failing any validation check rejects with a
type error and performs no insertion, but the store is not necessarily
unchanged: the resulting state is exactly the state after the delete step
that put runs before validating, which may have removed records matching
the request.  (The amendment is forced by the counterexample: the source
awaits the delete before any check.) -/
theorem c3_amended_reject_after_delete (n : String) (s : List CacheData) (r : Request)
    (res : Response) (h : putValidationFails r res) :
    (Cache.putRun n s r res).1.isSome = true ∧
    (Cache.putRun n s r res).2 = (Cache.deleteRun n s r {}).2 := by
  rcases putRun_cases n s r res with hc | hc
  · exfalso
    rcases h with h | h | h | h | h
    · rw [hc.2.1] at h
      exact absurd h (by decide)
    · exact h hc.2.2.1
    · exact hc.2.2.2.1 h
    · rw [hc.2.2.2.2.1] at h
      exact absurd h (by decide)
    · have hb := hc.2.2.2.2.2.1
      rw [h.1, h.2] at hb
      exact absurd hb (by decide)
  · exact ⟨hc.1, hc.2.2⟩

/-- Claim C3 witness: a put rejected for status 206 over a store holding a
matching record leaves exactly the delete result. -/
theorem c3_witness :
    (Cache.putRun "v1" [mkCacheData "v1" sampleReq okRes] sampleReq res206).1.isSome =
      true ∧
    (Cache.putRun "v1" [mkCacheData "v1" sampleReq okRes] sampleReq res206).2 =
      (Cache.deleteRun "v1" [mkCacheData "v1" sampleReq okRes] sampleReq {}).2 :=
  c3_amended_reject_after_delete "v1" [mkCacheData "v1" sampleReq okRes] sampleReq res206
    (Or.inr (Or.inr (Or.inl rfl)))

/-- Claim C3 counterexample: after a successful put, a second put of a 206
response for the same request rejects, yet the stored state differs from
the state before the failed call: the failed put removed the stored
record, contradicting the claim that a failed put leaves the state
unchanged. -/
theorem c3_counterexample :
    (Cache.putRun "v1" (Cache.putRun "v1" [] sampleReq okRes).2 sampleReq res206).1.isSome =
      true ∧
    (Cache.putRun "v1" (Cache.putRun "v1" [] sampleReq okRes).2 sampleReq res206).2 ≠
      (Cache.putRun "v1" [] sampleReq okRes).2 := by decide

/-- Claim C4, code bug evaluation: put of a GET request for the URL with
fragment frag1 completes, but match of the same URL with fragment frag2
returns absent, and even match with the identical frag1 request returns
absent: the query URL keeps its fragment while the stored URL was stripped,
so fragments are not ignored on the query side as the claim (and the
standard cache semantics the source polyfills) requires. -/
theorem c4_fragment_not_ignored :
    (Cache.putRun "v1" [] fragPutReq okRes).1 = none ∧
    Cache.matchRun "v1" (Cache.putRun "v1" [] fragPutReq okRes).2 (some fragGetReq) {} =
      none ∧
    Cache.matchRun "v1" (Cache.putRun "v1" [] fragPutReq okRes).2 (some fragPutReq) {} =
      none := by decide

/-- Claim C5 counterexample: after put of a GET request, matchAll with a
POST request for the same URL returns one response although no stored
record has method POST, contradicting the claim that matchAll returns only
records whose stored method is equivalent to the query method. -/
theorem c5_counterexample :
    (Cache.matchAllRun "v1" (Cache.putRun "v1" [] sampleReq okRes).2 (some postReq)
        {}).length = 1 ∧
    ((Cache.putRun "v1" [] sampleReq okRes).2).filter (fun c => c.reqMethod == "POST") =
      [] := by decide

/-- Claim C5, amended: for every non-HEAD request, matchAll returns exactly
the stored records of the cache name whose stored (fragment-stripped)
request URL equals the query URL as given, with no method comparison and no
fragment stripping on the query side; the ignoreSearch and ignoreVary
options have no effect on the comparison. -/
theorem c5_amended_matchall_url_only (n : String) (s : List CacheData) (r : Request)
    (o : CacheOptions) (h : r.method ≠ "HEAD") :
    Cache.matchAllRun n s (some r) o = matchAllByUrlOnly n s r := by
  simp [Cache.matchAllRun, matchAllByUrlOnly, h]

/-- Claim C5 witness: the amended matching rule at a concrete POST query
with every option set, over a one-record store. -/
theorem c5_witness :
    Cache.matchAllRun "v1" [mkCacheData "v1" sampleReq okRes] (some postReq)
        { ignoreSearch := true, ignoreMethod := true, ignoreVary := true } =
      matchAllByUrlOnly "v1" [mkCacheData "v1" sampleReq okRes] postReq :=
  c5_amended_matchall_url_only "v1" [mkCacheData "v1" sampleReq okRes] postReq
    { ignoreSearch := true, ignoreMethod := true, ignoreVary := true } (by decide)

/-- Claim C6: put rejects with a type error for every request with method
POST, for every request whose URL scheme is not http or https, for every
response with status 206, and for every response whose Vary header contains
a star. -/
theorem c6_put_rejects (n : String) (s : List CacheData) (r : Request) (res : Response)
    (h : r.method = "POST" ∨ schemeAllowed r.url = false ∨ res.status = 206 ∨
      varyHasStar res.headers = true) :
    (Cache.putRun n s r res).1.isSome = true := by
  rcases putRun_cases n s r res with hc | hc
  · exfalso
    rcases h with h | h | h | h
    · have hget := hc.2.2.1
      rw [h] at hget
      exact absurd hget (by decide)
    · rw [hc.2.1] at h
      exact absurd h (by decide)
    · exact hc.2.2.2.1 h
    · rw [hc.2.2.2.2.1] at h
      exact absurd h (by decide)
  · exact hc.1

/-- Claim C6 witness: put of a request with the ftp scheme rejects. -/
theorem c6_witness : (Cache.putRun "v1" [] ftpReq okRes).1.isSome = true :=
  c6_put_rejects "v1" [] ftpReq okRes (Or.inr (Or.inl (by decide)))

/-- Claim C7: delete returns true exactly when it removed at least one
record (equivalently, when it changed the store); and over a wellformed
store, delete run after a successful put of the same request returns true,
after which match on that request returns absent. -/
theorem c7_delete_semantics (n : String) (sA : List CacheData) (rA : Request)
    (oA : CacheOptions) (s : List CacheData) (r : Request) (res : Response)
    (hwf : storeWF s) (hok : (Cache.putRun n s r res).1 = none) :
    ((Cache.deleteRun n sA rA oA).1 = true ↔ (Cache.deleteRun n sA rA oA).2 ≠ sA) ∧
    (Cache.deleteRun n (Cache.putRun n s r res).2 r {}).1 = true ∧
    Cache.matchRun n (Cache.deleteRun n (Cache.putRun n s r res).2 r {}).2
      (some r) {} = none := by
  obtain ⟨_, hm, _, _, _, hstate⟩ := putRun_none_elim n s r res hok
  have hwf2 : storeWF (Cache.putRun n s r res).2 := storeWF_putRun n s r res hwf
  refine ⟨?_, ?_, ?_⟩
  · unfold Cache.deleteRun
    split
    · simp
    · exact any_iff_filter_ne _ sA
  · rw [deleteRun_empty_options]
    refine List.any_eq_true.mpr ⟨mkCacheData n r res, ?_, ?_⟩
    · rw [hstate]
      exact List.mem_append.mpr (Or.inr (List.mem_singleton.mpr rfl))
    · simp [deleteHit, mkCacheData, hm]
  · have hcond : (r.method == "HEAD") = false := by
      rw [hm]
      decide
    have hnil : ((Cache.deleteRun n (Cache.putRun n s r res).2 r {}).2).filter
        (fun c => c.cacheName == n && r.url == c.reqUrl) = [] := by
      refine List.filter_eq_nil_iff.mpr ?_
      intro c hc hq
      rw [no_url_match_after_delete n (Cache.putRun n s r res).2 r hwf2 hm c hc] at hq
      exact absurd hq (by decide)
    unfold Cache.matchRun Cache.matchAllRun
    simp only [hcond, Bool.false_eq_true, if_false, hnil, List.map_nil, List.head?_nil]

/-- Claim C7 witness: the iff at a concrete request over the empty store,
and the delete-after-put scenario at concrete inputs. -/
theorem c7_witness :
    ((Cache.deleteRun "v1" [] postReq {}).1 = true ↔
      (Cache.deleteRun "v1" [] postReq {}).2 ≠ []) ∧
    (Cache.deleteRun "v1" (Cache.putRun "v1" [] sampleReq okRes).2 sampleReq {}).1 = true ∧
    Cache.matchRun "v1"
        (Cache.deleteRun "v1" (Cache.putRun "v1" [] sampleReq okRes).2 sampleReq {}).2
        (some sampleReq) {} = none :=
  c7_delete_semantics "v1" [] postReq {} [] sampleReq okRes
    (fun c hc => absurd hc (List.not_mem_nil c)) (by decide)

/-- Claim C8: for every request whose method is neither GET nor HEAD,
delete called with ignoreMethod set returns false and leaves the store
untouched, as the literal inverted conditional of the source prescribes. -/
theorem c8_ignore_method_inversion (n : String) (s : List CacheData) (r : Request)
    (o : CacheOptions) (h1 : r.method ≠ "GET") (h2 : r.method ≠ "HEAD")
    (h3 : o.ignoreMethod = true) :
    Cache.deleteRun n s r o = (false, s) := by
  simp [Cache.deleteRun, h1, h2, h3]

/-- Claim C8 witness: delete of a POST request with ignoreMethod set over a
one-record store returns false and removes nothing. -/
theorem c8_witness :
    Cache.deleteRun "v1" [mkCacheData "v1" sampleReq okRes] postReq
        { ignoreMethod := true } =
      (false, [mkCacheData "v1" sampleReq okRes]) :=
  c8_ignore_method_inversion "v1" [mkCacheData "v1" sampleReq okRes] postReq
    { ignoreMethod := true } (by decide) (by decide) rfl

/-- Claim C9: for every HEAD request and every stored state, matchAll
returns the empty sequence and match returns absent. -/
theorem c9_head_never_matches (n : String) (s : List CacheData) (o : CacheOptions)
    (r : Request) (h : r.method = "HEAD") :
    Cache.matchAllRun n s (some r) o = [] ∧ Cache.matchRun n s (some r) o = none := by
  constructor
  · simp [Cache.matchAllRun, h]
  · simp [Cache.matchRun, Cache.matchAllRun, h]

/-- Claim C9 witness: the HEAD request over a nonempty store. -/
theorem c9_witness :
    Cache.matchAllRun "v1" [mkCacheData "v1" sampleReq okRes] (some headReq) {} = [] ∧
    Cache.matchRun "v1" [mkCacheData "v1" sampleReq okRes] (some headReq) {} = none :=
  c9_head_never_matches "v1" [mkCacheData "v1" sampleReq okRes] {} headReq rfl

/-- Claim C10: every record present in any store state reachable by a
sequence of mutating operations from the empty store has method GET: put
validates the method before inserting and delete only removes. -/
theorem c10_all_records_get (ops : List CacheOp) (c : CacheData) (h : c ∈ runOps ops) :
    c.reqMethod = "GET" :=
  (storeWF_runOps ops c h).1

/-- Claim C10 witness: the record created by one concrete put. -/
theorem c10_witness :
    (mkCacheData "v1" sampleReq okRes).reqMethod = "GET" :=
  c10_all_records_get [CacheOp.putOp "v1" sampleReq okRes]
    (mkCacheData "v1" sampleReq okRes) (by decide)

end CacheAPI
